import Mathlib

/-!
# lseed: the DNS responder of `seed/dns.go`

A shallow embedding of `seed/dns.go` (package `seed`) and the properties of its
identifier codec, its record builders and its query dispatcher.

Conventions of the embedding.

* A Go `string` is a sequence of bytes; it is modelled as a `List Char`, one
  element per byte, so that `len s` is `s.length` and `s[lo:hi]` is a
  bounds-checked `drop`/`take`.
* A run-time panic of Go (index or slice out of range) is the `Except.error`
  result of type `Panic`.
* The handler `handleLightningDns` has two observable effects: the messages it
  hands to `w.WriteMsg` and the keys it reads in the map `netview.nodes`.
  Both are returned in an `Outcome`.
-/

set_option autoImplicit false

namespace Lseed

/-! ## Go values -/

/-- A Go string: a sequence of bytes, one `Char` per byte. -/
abbrev GoString := List Char

/-- The run-time panics of Go that the code of `dns.go` can raise. -/
inductive Panic where
  | indexOutOfRange
  | sliceOutOfRange
  deriving DecidableEq, Repr

/-- Go `xs[i]` on a slice: panics when `i` is not below `len xs`. -/
def index {α : Type} (xs : List α) (i : Nat) : Except Panic α :=
  match xs.get? i with
  | some x => .ok x
  | none => .error .indexOutOfRange

/-- Go `s[lo:hi]` on a string: panics unless `lo ≤ hi ≤ len s`. -/
def slice (s : GoString) (lo hi : Nat) : Except Panic GoString :=
  if lo ≤ hi ∧ hi ≤ s.length then .ok ((s.take hi).drop lo)
  else .error .sliceOutOfRange

/-- Go `s[lo:]` on a string: panics unless `lo ≤ len s`. -/
def sliceFrom (s : GoString) (lo : Nat) : Except Panic GoString :=
  if lo ≤ s.length then .ok (s.drop lo)
  else .error .sliceOutOfRange

/-- Go `strings.IndexByte`: the position of the first `sep` in `s`, `none`
where Go returns `-1`. -/
def indexByte : GoString → Char → Option Nat
  | [], _ => none
  | c :: cs, sep => if c = sep then some 0 else (indexByte cs sep).map (· + 1)

/-- Go `strings.SplitN(s, sep, n)` for a one-byte separator and `n ≥ 0`: at most
`n` substrings, the last one being the unsplit remainder. -/
def SplitN (s : GoString) (sep : Char) (n : Nat) : List GoString :=
  match n with
  | 0 => []
  | 1 => [s]
  | k + 2 =>
    match indexByte s sep with
    | none => [s]
    | some m => s.take m :: SplitN (s.drop (m + 1)) sep (k + 1)

/-! ## The DNS library types used by `dns.go` (`github.com/miekg/dns`) -/

/-- The constant `dns.TypeA`. -/
def TypeA : Nat := 1
/-- The constant `dns.TypeAAAA`. -/
def TypeAAAA : Nat := 28
/-- The constant `dns.TypeSRV`. -/
def TypeSRV : Nat := 33
/-- The constant `dns.ClassINET`. -/
def ClassINET : Nat := 1
/-- The constant `dns.RcodeSuccess`. -/
def RcodeSuccess : Nat := 0

/-- The fields of `dns.RR_Header` that `dns.go` sets. -/
structure RR_Header where
  Name : GoString
  Rrtype : Nat
  Class : Nat
  Ttl : Nat
  deriving DecidableEq, Repr

/-- The resource records `dns.go` builds: `dns.A`, `dns.AAAA` and `dns.SRV`. -/
inductive RR where
  | A (Hdr : RR_Header) (A : List Nat)
  | AAAA (Hdr : RR_Header) (AAAA : List Nat)
  | SRV (Hdr : RR_Header) (Priority Weight Port : Nat) (Target : GoString)
  deriving DecidableEq, Repr

/-- The header of a record. -/
def RR.Hdr : RR → RR_Header
  | .A h _ => h
  | .AAAA h _ => h
  | .SRV h _ _ _ _ => h

/-- A `dns.Question`. -/
structure Question where
  Name : GoString
  Qtype : Nat
  Qclass : Nat
  deriving DecidableEq, Repr

/-- The fields of `dns.Msg` that the handler reads or writes. `Extra` is the
Additional section. -/
structure Msg where
  Id : Nat
  Response : Bool
  Rcode : Nat
  Question : List Question
  Answer : List RR
  Ns : List RR
  Extra : List RR
  deriving DecidableEq, Repr

/-- Go `new(dns.Msg)`: the zero message. -/
def Msg.new : Msg :=
  { Id := 0, Response := false, Rcode := 0, Question := [], Answer := [], Ns := [], Extra := [] }

/-- The library method `(*dns.Msg).SetReply`: copies the id and the first
question of the request, and marks the message as a successful response. -/
def Msg.SetReply (m : Msg) (request : Msg) : Msg :=
  { m with
    Id := request.Id
    Response := true
    Rcode := RcodeSuccess
    Question := request.Question.take 1 }

/-! ## The peer directory -/

/-- Modelled from the spec: the type `Node` is declared outside `dns.go`; the
fields are the ones `dns.go` reads (`Id`, `Ip`, `Port`, and `Type`, written
`Type_` here), with the
meaning of the spec's peer record: a hexadecimal identifier, raw address bytes,
a 16-bit port, and a bit-flag field whose bit 0 selects the address family. -/
structure Node where
  Id : GoString
  Ip : List Nat
  Port : Nat
  Type_ : Nat
  deriving DecidableEq, Repr

/-- The zero value of `Node`, which a Go map read returns for a missing key. -/
def Node.zero : Node := { Id := [], Ip := [], Port := 0, Type_ := 0 }

/-- Modelled from the spec: the type `NetworkView` is declared outside `dns.go`.
`nodes` is the map `map[string]Node` read by the handler, and `RandomSample` is
the sampling method, taken as a parameter: the peers it returns for the
arguments of one call. -/
structure NetworkView where
  nodes : GoString → Option Node
  RandomSample : Nat → Nat → List Node

/-- The struct `DnsServer`. -/
structure DnsServer where
  netview : NetworkView

/-- The constructor `NewDnsServer`. -/
def NewDnsServer (netview : NetworkView) : DnsServer :=
  { netview := netview }

/-! ## Response builder -/

/-- The function `addAResponse`: appends one `A` record to `responses`. -/
def addAResponse (n : Node) (name : GoString) (responses : List RR) : List RR :=
  let header : RR_Header :=
    { Rrtype := TypeA, Class := ClassINET, Ttl := 60, Name := name }
  let rr := RR.A header n.Ip
  responses ++ [rr]

/-- The function `addAAAAResponse`: appends one `AAAA` record to `responses`. -/
def addAAAAResponse (n : Node) (name : GoString) (responses : List RR) : List RR :=
  let header : RR_Header :=
    { Rrtype := TypeAAAA, Class := ClassINET, Ttl := 60, Name := name }
  let rr := RR.AAAA header n.Ip
  responses ++ [rr]

/-! ## Identifier codec -/

/-- The name of the zone the handler answers for. -/
def apex : GoString := "lseed.bitcoinstats.com.".toList

/-- The characters of a peer identifier: the data model has `Id` a hexadecimal
string (the hexadecimal rendering of a public key). -/
def isHexChar (c : Char) : Bool :=
  ('0' ≤ c && c ≤ '9') || ('a' ≤ c && c ≤ 'f') || ('A' ≤ c && c ≤ 'F')

/-- The two labels of `handleSRVQuery` (line 87): `Id[1:64]` and `Id[64:]`. -/
def encode (id : GoString) : Except Panic (GoString × GoString) := do
  let label1 ← slice id 1 64
  let label2 ← sliceFrom id 64
  pure (label1, label2)

/-- The target name of `handleSRVQuery` (line 87):
`fmt.Sprintf("%s.%s.lseed.bitcoinstats.com.", n.Id[1:64], n.Id[64:])`. -/
def nodeName (id : GoString) : Except Panic GoString := do
  let (label1, label2) ← encode id
  pure (label1 ++ ['.'] ++ label2 ++ ".lseed.bitcoinstats.com.".toList)

/-- The decoder of `handleLightningDns` (lines 131-136): split the name at its
first two dots, check the structure, and rebuild the identifier with
`fmt.Sprintf("0%s%s", splits[0], splits[1])`. `none` is the rejecting branch. -/
def decode (name : GoString) : Except Panic (Option GoString) :=
  let splits := SplitN name '.' 3
  if splits.length ≠ 3 then pure none
  else do
    let s0 ← index splits 0
    let s1 ← index splits 1
    if s0.length + s1.length ≠ 65 then pure none
    else pure (some ('0' :: (s0 ++ s1)))

/-! ## Query dispatcher -/

/-- The method `handleAAAAQuery`. -/
def handleAAAAQuery (ds : DnsServer) (request response : Msg) : Except Panic Msg :=
  let nodes := ds.netview.RandomSample 3 25
  nodes.foldlM (fun response n => do
    let q ← index request.Question 0
    pure { response with Answer := addAAAAResponse n q.Name response.Answer }) response

/-- The method `handleAQuery`. -/
def handleAQuery (ds : DnsServer) (request response : Msg) : Except Panic Msg :=
  let nodes := ds.netview.RandomSample 2 25
  nodes.foldlM (fun response n => do
    let q ← index request.Question 0
    pure { response with Answer := addAResponse n q.Name response.Answer }) response

/-- The owner name of the service records of `handleSRVQuery`. -/
def srvOwner : GoString := "_lightning._tcp.bitcoinstats.com.".toList

/-- The method `handleSRVQuery`. -/
def handleSRVQuery (ds : DnsServer) (_request response : Msg) : Except Panic Msg :=
  let nodes := ds.netview.RandomSample 255 25
  let header : RR_Header :=
    { Name := srvOwner, Rrtype := TypeSRV, Class := ClassINET, Ttl := 60 }
  nodes.foldlM (fun response n => do
    let nodeName ← nodeName n.Id
    let rr := RR.SRV header 10 10 n.Port nodeName
    let response := { response with Answer := response.Answer ++ [rr] }
    if n.Type_ &&& 1 = 1 then
      pure { response with Extra := addAAAAResponse n nodeName response.Extra }
    else
      pure { response with Extra := addAResponse n nodeName response.Extra }) response

/-- What one run of the handler does to the outside: the messages handed to
`w.WriteMsg`, and the keys read in the map `netview.nodes`, both in order. -/
structure Outcome where
  written : List Msg
  lookups : List GoString
  deriving DecidableEq, Repr

/-- The method `handleLightningDns`. -/
def handleLightningDns (ds : DnsServer) (r : Msg) : Except Panic Outcome := do
  let name := (← index r.Question 0).Name
  let qtype := (← index r.Question 0).Qtype
  let m := Msg.new.SetReply r
  if name = apex then
    let m ←
      if qtype = TypeAAAA then handleAAAAQuery ds r m
      else if qtype = TypeA then handleAQuery ds r m
      else if qtype = TypeSRV then handleSRVQuery ds r m
      else pure m
    pure { written := [m], lookups := [] }
  else
    match ← decode name with
    | none => pure { written := [], lookups := [] }
    | some id =>
      let n := (ds.netview.nodes id).getD Node.zero
      let m :=
        if qtype = TypeAAAA then
          if n.Type_ &&& 1 = 1 then { m with Answer := addAAAAResponse n name m.Answer }
          else { m with Extra := addAAAAResponse n name m.Extra }
        else if qtype = TypeA then
          if n.Type_ &&& 1 = 0 then { m with Answer := addAResponse n name m.Answer }
          else { m with Extra := addAResponse n name m.Extra }
        else m
      pure { written := [m], lookups := [id] }


/-! ## Example data -/

/-- An identifier of the directory of `exServer`: `02` followed by 64 `a`. -/
def exId4 : GoString := '0' :: '2' :: List.replicate 64 'a'

/-- An identifier of the directory of `exServer`: `03` followed by 64 `b`. -/
def exId6 : GoString := '0' :: '3' :: List.replicate 64 'b'

/-- An identifier that is not in the directory of `exServer`. -/
def exIdAbsent : GoString := '0' :: '2' :: List.replicate 64 'c'

/-- A peer with an IPv4 address (bit 0 of `Type` is 0). -/
def exPeer4 : Node := { Id := exId4, Ip := [192, 0, 2, 1], Port := 9735, Type_ := 0 }

/-- A peer with an IPv6 address (bit 0 of `Type` is 1). -/
def exPeer6 : Node :=
  { Id := exId6, Ip := [32, 1, 13, 184, 0, 0, 0, 0, 0, 0, 0, 0, 0, 0, 0, 1],
    Port := 9736, Type_ := 1 }

/-- A server whose directory holds `exPeer4` and `exPeer6`, and whose sampling
takes a pool of the first `poolSize` of them and returns its first `count`. -/
def exServer : DnsServer :=
  NewDnsServer
    { nodes := fun id =>
        if id = exId4 then some exPeer4 else if id = exId6 then some exPeer6 else none
      RandomSample := fun count poolSize => ([exPeer4, exPeer6].take poolSize).take count }

/-- The per-peer name of an identifier of length 66. -/
def exName (id : GoString) : GoString :=
  (id.drop 1).take 63 ++ '.' :: (id.drop 64 ++ '.' :: apex)

/-- A request with the single question `(name, qtype, IN)`. -/
def exQuery (name : GoString) (qtype : Nat) : Msg :=
  { Msg.new with Id := 7, Question := [{ Name := name, Qtype := qtype, Qclass := ClassINET }] }

/-! ## Lemmas on the Go string primitives -/

theorem indexByte_eq_none (sep : Char) (s : GoString) :
    indexByte s sep = none ↔ sep ∉ s := by
  induction s with
  | nil => simp [indexByte]
  | cons c cs ih =>
    by_cases h : c = sep
    · simp [indexByte, h]
    · have h2 : ¬ sep = c := fun e => h e.symm
      simp [indexByte, h, h2, ih]

theorem indexByte_eq_some (sep : Char) (s : GoString) (m : Nat) :
    indexByte s sep = some m ↔
      ∃ a b, s = a ++ sep :: b ∧ sep ∉ a ∧ a.length = m := by
  induction s generalizing m with
  | nil => simp [indexByte]
  | cons c cs ih =>
    by_cases h : c = sep
    · subst h
      simp only [indexByte, if_true, Option.some.injEq]
      constructor
      · intro e; subst e; exact ⟨[], cs, rfl, by simp, rfl⟩
      · rintro ⟨a, b, e, hn, hl⟩
        cases a with
        | nil => simpa using hl
        | cons x xs =>
          simp at e
          simp [e.1] at hn
    · have h2 : ¬ sep = c := fun e => h e.symm
      simp only [indexByte, h, if_false, Option.map_eq_some']
      constructor
      · rintro ⟨k, hk, rfl⟩
        obtain ⟨a, b, e, hn, hl⟩ := (ih k).1 hk
        exact ⟨c :: a, b, by simp [e], by simp [h2, hn], by simp [hl]⟩
      · rintro ⟨a, b, e, hn, hl⟩
        cases a with
        | nil => simp at e; exact absurd e.1 h
        | cons x xs =>
          simp at e
          simp at hn
          refine ⟨xs.length, (ih _).2 ⟨xs, b, e.2, hn.2, rfl⟩, by simpa using hl⟩

theorem indexByte_append (sep : Char) (a b : GoString) (h : sep ∉ a) :
    indexByte (a ++ sep :: b) sep = some a.length :=
  (indexByte_eq_some sep _ _).2 ⟨a, b, rfl, h, rfl⟩

theorem indexByte_cut (sep : Char) (s : GoString) (m : Nat)
    (h : indexByte s sep = some m) :
    s = s.take m ++ sep :: s.drop (m + 1) ∧ sep ∉ s.take m := by
  obtain ⟨a, b, e, hn, hl⟩ := (indexByte_eq_some sep s m).1 h
  subst e; subst hl
  simp [hn]

theorem SplitN_one (sep : Char) (s : GoString) : SplitN s sep 1 = [s] := by
  simp [SplitN]

theorem SplitN_two (sep : Char) (s : GoString) :
    SplitN s sep 2 =
      match indexByte s sep with
      | none => [s]
      | some m => [s.take m, s.drop (m + 1)] := by
  rw [SplitN]
  cases indexByte s sep <;> simp [SplitN_one]

theorem SplitN_three_unfold (sep : Char) (s : GoString) :
    SplitN s sep 3 =
      match indexByte s sep with
      | none => [s]
      | some m => s.take m :: SplitN (s.drop (m + 1)) sep 2 := by
  rw [SplitN]

theorem SplitN_three (sep : Char) (s c1 c2 c3 : GoString) :
    SplitN s sep 3 = [c1, c2, c3] ↔
      s = c1 ++ sep :: (c2 ++ sep :: c3) ∧ sep ∉ c1 ∧ sep ∉ c2 := by
  constructor
  · intro h
    rw [SplitN_three_unfold] at h
    cases h1 : indexByte s sep with
    | none => simp [h1] at h
    | some m =>
      rw [h1] at h
      simp only [SplitN_two] at h
      obtain ⟨e1, n1⟩ := indexByte_cut sep s m h1
      cases h2 : indexByte (s.drop (m + 1)) sep with
      | none => simp [h2] at h
      | some k =>
        rw [h2] at h
        obtain ⟨e2, n2⟩ := indexByte_cut sep _ k h2
        simp only [List.cons.injEq, and_true] at h
        obtain ⟨a1, a2, a3⟩ := h
        rw [a1] at e1 n1
        rw [a2, a3] at e2
        rw [a2] at n2
        rw [e2] at e1
        exact ⟨e1, n1, n2⟩
  · rintro ⟨e, n1, n2⟩
    subst e
    rw [SplitN_three_unfold, indexByte_append sep c1 _ n1]
    simp only [SplitN_two]
    have : List.drop (c1.length + 1) (c1 ++ sep :: (c2 ++ sep :: c3)) = c2 ++ sep :: c3 := by
      simp
    rw [this, indexByte_append sep c2 _ n2]
    simp

theorem SplitN_three_length (sep : Char) (s : GoString) :
    (SplitN s sep 3).length = 3 ↔
      ∃ c1 c2 c3, SplitN s sep 3 = [c1, c2, c3] := by
  constructor
  · intro h
    match hs : SplitN s sep 3, h with
    | [a, b, c], _ => exact ⟨a, b, c, rfl⟩
  · rintro ⟨a, b, c, h⟩
    simp [h]

theorem decode_of_split (name c1 c2 c3 : GoString)
    (h : SplitN name '.' 3 = [c1, c2, c3]) :
    decode name =
      .ok (if c1.length + c2.length = 65 then some ('0' :: (c1 ++ c2)) else none) := by
  unfold decode
  simp only [h, index]
  by_cases hl : c1.length + c2.length = 65
  · simp [hl, bind, Except.bind, pure, Except.pure]
  · simp [hl, bind, Except.bind, pure, Except.pure]

theorem decode_of_length_ne (name : GoString)
    (h : (SplitN name '.' 3).length ≠ 3) : decode name = .ok none := by
  unfold decode
  simp [h, pure, Except.pure]

/-- The decoder never panics. -/
theorem decode_total (name : GoString) : ∃ r, decode name = .ok r := by
  by_cases h : (SplitN name '.' 3).length = 3
  · obtain ⟨c1, c2, c3, hs⟩ := (SplitN_three_length '.' name).1 h
    exact ⟨_, decode_of_split name c1 c2 c3 hs⟩
  · exact ⟨_, decode_of_length_ne name h⟩

theorem decode_eq_some (name id : GoString) :
    decode name = .ok (some id) ↔
      ∃ c1 c2 c3, name = c1 ++ '.' :: (c2 ++ '.' :: c3) ∧ '.' ∉ c1 ∧ '.' ∉ c2 ∧
        c1.length + c2.length = 65 ∧ id = '0' :: (c1 ++ c2) := by
  constructor
  · intro h
    by_cases hl : (SplitN name '.' 3).length = 3
    · obtain ⟨c1, c2, c3, hs⟩ := (SplitN_three_length '.' name).1 hl
      rw [decode_of_split name c1 c2 c3 hs] at h
      obtain ⟨e, n1, n2⟩ := (SplitN_three '.' name c1 c2 c3).1 hs
      by_cases h65 : c1.length + c2.length = 65
      · simp only [h65, if_true, Except.ok.injEq, Option.some.injEq] at h
        exact ⟨c1, c2, c3, e, n1, n2, h65, h.symm⟩
      · simp [h65] at h
    · rw [decode_of_length_ne name hl] at h
      simp at h
  · rintro ⟨c1, c2, c3, e, n1, n2, h65, hid⟩
    have hs := (SplitN_three '.' name c1 c2 c3).2 ⟨e, n1, n2⟩
    rw [decode_of_split name c1 c2 c3 hs, hid]
    simp [h65]

theorem decode_eq_none (name : GoString) :
    decode name = .ok none ↔
      ¬ ∃ c1 c2 c3, name = c1 ++ '.' :: (c2 ++ '.' :: c3) ∧ '.' ∉ c1 ∧ '.' ∉ c2 ∧
        c1.length + c2.length = 65 := by
  constructor
  · rintro h ⟨c1, c2, c3, e, n1, n2, h65⟩
    have := (decode_eq_some name _).2 ⟨c1, c2, c3, e, n1, n2, h65, rfl⟩
    rw [h] at this
    simp at this
  · intro h
    obtain ⟨r, hr⟩ := decode_total name
    cases r with
    | none => exact hr
    | some id =>
      obtain ⟨c1, c2, c3, e, n1, n2, h65, _⟩ := (decode_eq_some name id).1 hr
      exact absurd ⟨c1, c2, c3, e, n1, n2, h65⟩ h

theorem encode_of_length (id : GoString) (h : id.length = 66) :
    encode id = .ok ((id.drop 1).take 63, id.drop 64) := by
  unfold encode slice sliceFrom
  simp [h, bind, Except.bind, pure, Except.pure, List.drop_take]

theorem nodeName_of_length (id : GoString) (h : id.length = 66) :
    nodeName id =
      .ok ((id.drop 1).take 63 ++ '.' :: (id.drop 64 ++ '.' :: apex)) := by
  unfold nodeName
  rw [encode_of_length id h]
  simp [bind, Except.bind, pure, Except.pure, apex]

theorem foldlM_AAAA (q : Question) (rest : List Question) (request : Msg)
    (hq : request.Question = q :: rest) (nodes : List Node) (response : Msg) :
    nodes.foldlM (fun (response : Msg) (n : Node) => do
        let q ← index request.Question 0
        (pure { response with Answer := addAAAAResponse n q.Name response.Answer } :
          Except Panic Msg)) response =
      .ok { response with
        Answer := response.Answer ++
          nodes.map (fun n => RR.AAAA ⟨q.Name, TypeAAAA, ClassINET, 60⟩ n.Ip) } := by
  induction nodes generalizing response with
  | nil => simp [pure, Except.pure]
  | cons n ns ih =>
    simp only [List.foldlM_cons, hq, index, List.get?_cons_zero, bind, Except.bind,
      pure, Except.pure]
    have := ih { response with Answer := addAAAAResponse n q.Name response.Answer }
    simp only [hq, index, List.get?_cons_zero, bind, Except.bind, pure, Except.pure] at this
    rw [this]
    simp [addAAAAResponse]

theorem foldlM_A (q : Question) (rest : List Question) (request : Msg)
    (hq : request.Question = q :: rest) (nodes : List Node) (response : Msg) :
    nodes.foldlM (fun (response : Msg) (n : Node) => do
        let q ← index request.Question 0
        (pure { response with Answer := addAResponse n q.Name response.Answer } :
          Except Panic Msg)) response =
      .ok { response with
        Answer := response.Answer ++
          nodes.map (fun n => RR.A ⟨q.Name, TypeA, ClassINET, 60⟩ n.Ip) } := by
  induction nodes generalizing response with
  | nil => simp [pure, Except.pure]
  | cons n ns ih =>
    simp only [List.foldlM_cons, hq, index, List.get?_cons_zero, bind, Except.bind,
      pure, Except.pure]
    have := ih { response with Answer := addAResponse n q.Name response.Answer }
    simp only [hq, index, List.get?_cons_zero, bind, Except.bind, pure, Except.pure] at this
    rw [this]
    simp [addAResponse]

theorem handleAAAAQuery_eq (ds : DnsServer) (q : Question) (rest : List Question)
    (request response : Msg) (hq : request.Question = q :: rest) :
    handleAAAAQuery ds request response =
      .ok { response with
        Answer := response.Answer ++
          (ds.netview.RandomSample 3 25).map
            (fun n => RR.AAAA ⟨q.Name, TypeAAAA, ClassINET, 60⟩ n.Ip) } :=
  foldlM_AAAA q rest request hq _ response

theorem handleAQuery_eq (ds : DnsServer) (q : Question) (rest : List Question)
    (request response : Msg) (hq : request.Question = q :: rest) :
    handleAQuery ds request response =
      .ok { response with
        Answer := response.Answer ++
          (ds.netview.RandomSample 2 25).map
            (fun n => RR.A ⟨q.Name, TypeA, ClassINET, 60⟩ n.Ip) } :=
  foldlM_A q rest request hq _ response

theorem foldlM_SRV (nodes : List Node) (hlen : ∀ n ∈ nodes, n.Id.length = 66)
    (response : Msg) :
    nodes.foldlM (fun (response : Msg) (n : Node) => do
        let nodeName ← nodeName n.Id
        let rr := RR.SRV { Name := srvOwner, Rrtype := TypeSRV, Class := ClassINET, Ttl := 60 }
          10 10 n.Port nodeName
        let response := { response with Answer := response.Answer ++ [rr] }
        if n.Type_ &&& 1 = 1 then
          (pure { response with Extra := addAAAAResponse n nodeName response.Extra } :
            Except Panic Msg)
        else
          pure { response with Extra := addAResponse n nodeName response.Extra }) response =
      .ok { response with
        Answer := response.Answer ++ nodes.map (fun n =>
          RR.SRV ⟨srvOwner, TypeSRV, ClassINET, 60⟩ 10 10 n.Port
            ((n.Id.drop 1).take 63 ++ '.' :: (n.Id.drop 64 ++ '.' :: apex)))
        Extra := response.Extra ++ nodes.map (fun n =>
          if n.Type_ % 2 = 1 then
            RR.AAAA ⟨(n.Id.drop 1).take 63 ++ '.' :: (n.Id.drop 64 ++ '.' :: apex),
              TypeAAAA, ClassINET, 60⟩ n.Ip
          else
            RR.A ⟨(n.Id.drop 1).take 63 ++ '.' :: (n.Id.drop 64 ++ '.' :: apex),
              TypeA, ClassINET, 60⟩ n.Ip) } := by
  induction nodes generalizing response with
  | nil => simp [pure, Except.pure]
  | cons n ns ih =>
    have hn : n.Id.length = 66 := hlen n (by simp)
    have hns : ∀ x ∈ ns, x.Id.length = 66 := fun x hx => hlen x (by simp [hx])
    simp only [List.foldlM_cons, nodeName_of_length n.Id hn, bind, Except.bind]
    have := ih hns
    simp only [bind, Except.bind, pure, Except.pure] at this
    by_cases hb : n.Type_ &&& 1 = 1
    · have hb2 : n.Type_ % 2 = 1 := by rwa [← Nat.and_one_is_mod]
      simp only [hb, if_true, pure, Except.pure]
      rw [this]
      simp [addAAAAResponse, hb2]
    · have hb2 : ¬ n.Type_ % 2 = 1 := by rwa [← Nat.and_one_is_mod]
      simp only [hb, if_false, pure, Except.pure]
      rw [this]
      simp [addAResponse, hb2]

theorem handleSRVQuery_eq (ds : DnsServer) (request response : Msg)
    (hlen : ∀ n ∈ ds.netview.RandomSample 255 25, n.Id.length = 66) :
    handleSRVQuery ds request response =
      .ok { response with
        Answer := response.Answer ++ (ds.netview.RandomSample 255 25).map (fun n =>
          RR.SRV ⟨srvOwner, TypeSRV, ClassINET, 60⟩ 10 10 n.Port
            ((n.Id.drop 1).take 63 ++ '.' :: (n.Id.drop 64 ++ '.' :: apex)))
        Extra := response.Extra ++ (ds.netview.RandomSample 255 25).map (fun n =>
          if n.Type_ % 2 = 1 then
            RR.AAAA ⟨(n.Id.drop 1).take 63 ++ '.' :: (n.Id.drop 64 ++ '.' :: apex),
              TypeAAAA, ClassINET, 60⟩ n.Ip
          else
            RR.A ⟨(n.Id.drop 1).take 63 ++ '.' :: (n.Id.drop 64 ++ '.' :: apex),
              TypeA, ClassINET, 60⟩ n.Ip) } :=
  foldlM_SRV _ hlen response

/-! ### The dispatcher, branch by branch -/

theorem handle_apex (ds : DnsServer) (r : Msg) (q : Question) (rest : List Question)
    (hq : r.Question = q :: rest) (hname : q.Name = apex) :
    handleLightningDns ds r =
      (do
        let m ←
          if q.Qtype = TypeAAAA then handleAAAAQuery ds r (Msg.new.SetReply r)
          else if q.Qtype = TypeA then handleAQuery ds r (Msg.new.SetReply r)
          else if q.Qtype = TypeSRV then handleSRVQuery ds r (Msg.new.SetReply r)
          else pure (Msg.new.SetReply r)
        pure { written := [m], lookups := [] }) := by
  unfold handleLightningDns
  simp only [hq, index, List.get?_cons_zero, bind, Except.bind, hname, if_true]

theorem handle_apex_AAAA (ds : DnsServer) (r : Msg) (q : Question) (rest : List Question)
    (hq : r.Question = q :: rest) (hname : q.Name = apex) (hty : q.Qtype = TypeAAAA) :
    handleLightningDns ds r =
      .ok { written :=
              [{ Msg.new.SetReply r with
                 Answer := (ds.netview.RandomSample 3 25).map
                   (fun n => RR.AAAA ⟨q.Name, TypeAAAA, ClassINET, 60⟩ n.Ip) }]
            lookups := [] } := by
  rw [handle_apex ds r q rest hq hname]
  simp only [hty, if_true, handleAAAAQuery_eq ds q rest r _ hq, bind, Except.bind,
    pure, Except.pure]
  simp [Msg.SetReply, Msg.new]

theorem handle_apex_A (ds : DnsServer) (r : Msg) (q : Question) (rest : List Question)
    (hq : r.Question = q :: rest) (hname : q.Name = apex) (hty : q.Qtype = TypeA) :
    handleLightningDns ds r =
      .ok { written :=
              [{ Msg.new.SetReply r with
                 Answer := (ds.netview.RandomSample 2 25).map
                   (fun n => RR.A ⟨q.Name, TypeA, ClassINET, 60⟩ n.Ip) }]
            lookups := [] } := by
  have hc : ¬ TypeA = TypeAAAA := by decide
  rw [handle_apex ds r q rest hq hname]
  simp only [hty, hc, if_true, if_false, handleAQuery_eq ds q rest r _ hq, bind,
    Except.bind, pure, Except.pure]
  simp [Msg.SetReply, Msg.new]

theorem handle_apex_SRV (ds : DnsServer) (r : Msg) (q : Question) (rest : List Question)
    (hq : r.Question = q :: rest) (hname : q.Name = apex) (hty : q.Qtype = TypeSRV) :
    handleLightningDns ds r =
      match handleSRVQuery ds r (Msg.new.SetReply r) with
      | .error e => .error e
      | .ok m => .ok { written := [m], lookups := [] } := by
  have hc1 : ¬ TypeSRV = TypeAAAA := by decide
  have hc2 : ¬ TypeSRV = TypeA := by decide
  rw [handle_apex ds r q rest hq hname]
  simp only [hty, hc1, hc2, if_true, if_false, bind, Except.bind, pure, Except.pure]
  cases handleSRVQuery ds r (Msg.new.SetReply r) <;> rfl

theorem handle_apex_other (ds : DnsServer) (r : Msg) (q : Question) (rest : List Question)
    (hq : r.Question = q :: rest) (hname : q.Name = apex)
    (h1 : q.Qtype ≠ TypeAAAA) (h2 : q.Qtype ≠ TypeA) (h3 : q.Qtype ≠ TypeSRV) :
    handleLightningDns ds r =
      .ok { written := [Msg.new.SetReply r], lookups := [] } := by
  rw [handle_apex ds r q rest hq hname]
  simp only [h1, h2, h3, if_false, bind, Except.bind, pure, Except.pure]

theorem handle_reject (ds : DnsServer) (r : Msg) (q : Question) (rest : List Question)
    (hq : r.Question = q :: rest) (hname : q.Name ≠ apex)
    (hdec : decode q.Name = .ok none) :
    handleLightningDns ds r = .ok { written := [], lookups := [] } := by
  unfold handleLightningDns
  simp only [hq, index, List.get?_cons_zero, bind, Except.bind, hname, if_false, hdec]
  rfl

theorem handle_accept (ds : DnsServer) (r : Msg) (q : Question) (rest : List Question)
    (id : GoString) (hq : r.Question = q :: rest) (hname : q.Name ≠ apex)
    (hdec : decode q.Name = .ok (some id)) :
    handleLightningDns ds r =
      .ok { written :=
              [ if q.Qtype = TypeAAAA then
                  if ((ds.netview.nodes id).getD Node.zero).Type_ % 2 = 1 then
                    { Msg.new.SetReply r with
                      Answer := [RR.AAAA ⟨q.Name, TypeAAAA, ClassINET, 60⟩
                        ((ds.netview.nodes id).getD Node.zero).Ip] }
                  else
                    { Msg.new.SetReply r with
                      Extra := [RR.AAAA ⟨q.Name, TypeAAAA, ClassINET, 60⟩
                        ((ds.netview.nodes id).getD Node.zero).Ip] }
                else if q.Qtype = TypeA then
                  if ((ds.netview.nodes id).getD Node.zero).Type_ % 2 = 0 then
                    { Msg.new.SetReply r with
                      Answer := [RR.A ⟨q.Name, TypeA, ClassINET, 60⟩
                        ((ds.netview.nodes id).getD Node.zero).Ip] }
                  else
                    { Msg.new.SetReply r with
                      Extra := [RR.A ⟨q.Name, TypeA, ClassINET, 60⟩
                        ((ds.netview.nodes id).getD Node.zero).Ip] }
                else Msg.new.SetReply r ]
            lookups := [id] } := by
  unfold handleLightningDns
  simp only [hq, index, List.get?_cons_zero, bind, Except.bind, hname, if_false, hdec,
    Nat.and_one_is_mod]
  simp only [pure, Except.pure, addAAAAResponse, addAResponse, Msg.SetReply, Msg.new,
    List.nil_append]

/-! ### The records of a reply -/

theorem foldlM_invariant {σ α : Type} (Q : σ → Prop) (f : σ → α → Except Panic σ)
    (hf : ∀ s a s', Q s → f s a = .ok s' → Q s') :
    ∀ (l : List α) (s out : σ), Q s → l.foldlM f s = .ok out → Q out := by
  intro l
  induction l with
  | nil =>
    intro s out hs h
    simp only [List.foldlM_nil, pure, Except.pure, Except.ok.injEq] at h
    exact h ▸ hs
  | cons a as ih =>
    intro s out hs h
    simp only [List.foldlM_cons, bind, Except.bind] at h
    cases hfa : f s a with
    | error e => rw [hfa] at h; cases h
    | ok s' =>
      rw [hfa] at h
      exact ih s' out (hf s a s' hs hfa) h

theorem handleSRVQuery_records (P : RR → Prop)
    (hA : ∀ name ip, P (RR.A ⟨name, TypeA, ClassINET, 60⟩ ip))
    (hAAAA : ∀ name ip, P (RR.AAAA ⟨name, TypeAAAA, ClassINET, 60⟩ ip))
    (hSRV : ∀ port t, P (RR.SRV ⟨srvOwner, TypeSRV, ClassINET, 60⟩ 10 10 port t))
    (ds : DnsServer) (request response out : Msg)
    (hresp : ∀ rr ∈ response.Answer ++ response.Extra, P rr)
    (h : handleSRVQuery ds request response = .ok out) :
    ∀ rr ∈ out.Answer ++ out.Extra, P rr := by
  refine foldlM_invariant (fun m : Msg => ∀ rr ∈ m.Answer ++ m.Extra, P rr) _ ?_ _ _ _ hresp h
  intro m n m' hm hstep
  simp only [bind, Except.bind] at hstep
  cases hnn : nodeName n.Id with
  | error e => rw [hnn] at hstep; cases hstep
  | ok t =>
    rw [hnn] at hstep
    simp only [List.mem_append] at hm
    by_cases hb : n.Type_ &&& 1 = 1
    · simp only [hb, if_true, pure, Except.pure, Except.ok.injEq] at hstep
      subst hstep
      intro rr hrr
      simp only [addAAAAResponse, List.mem_append, List.mem_singleton] at hrr
      rcases hrr with (h1 | h1) | (h1 | h1)
      · exact hm rr (Or.inl h1)
      · exact h1 ▸ hSRV _ _
      · exact hm rr (Or.inr h1)
      · exact h1 ▸ hAAAA _ _
    · simp only [hb, if_false, pure, Except.pure, Except.ok.injEq] at hstep
      subst hstep
      intro rr hrr
      simp only [addAResponse, List.mem_append, List.mem_singleton] at hrr
      rcases hrr with (h1 | h1) | (h1 | h1)
      · exact hm rr (Or.inl h1)
      · exact h1 ▸ hSRV _ _
      · exact hm rr (Or.inr h1)
      · exact h1 ▸ hA _ _

/-- Every record of every message the handler writes is one of the three
records the builders produce. -/
theorem handleLightningDns_records (P : RR → Prop)
    (hA : ∀ name ip, P (RR.A ⟨name, TypeA, ClassINET, 60⟩ ip))
    (hAAAA : ∀ name ip, P (RR.AAAA ⟨name, TypeAAAA, ClassINET, 60⟩ ip))
    (hSRV : ∀ port t, P (RR.SRV ⟨srvOwner, TypeSRV, ClassINET, 60⟩ 10 10 port t))
    (ds : DnsServer) (r : Msg) (out : Outcome)
    (h : handleLightningDns ds r = .ok out) :
    ∀ m ∈ out.written, ∀ rr ∈ m.Answer ++ m.Extra, P rr := by
  cases hq : r.Question with
  | nil =>
    unfold handleLightningDns at h
    simp [hq, index, bind, Except.bind] at h
  | cons q rest =>
    by_cases hname : q.Name = apex
    · by_cases t1 : q.Qtype = TypeAAAA
      · rw [handle_apex_AAAA ds r q rest hq hname t1] at h
        simp only [Except.ok.injEq] at h
        subst h
        intro m hm rr hrr
        simp only [List.mem_singleton] at hm
        subst hm
        simp only [Msg.SetReply, Msg.new, List.append_nil, List.mem_map] at hrr
        obtain ⟨n, _, rfl⟩ := hrr
        exact hAAAA _ _
      · by_cases t2 : q.Qtype = TypeA
        · rw [handle_apex_A ds r q rest hq hname t2] at h
          simp only [Except.ok.injEq] at h
          subst h
          intro m hm rr hrr
          simp only [List.mem_singleton] at hm
          subst hm
          simp only [Msg.SetReply, Msg.new, List.append_nil, List.mem_map] at hrr
          obtain ⟨n, _, rfl⟩ := hrr
          exact hA _ _
        · by_cases t3 : q.Qtype = TypeSRV
          · rw [handle_apex_SRV ds r q rest hq hname t3] at h
            cases hs : handleSRVQuery ds r (Msg.new.SetReply r) with
            | error e => rw [hs] at h; cases h
            | ok m' =>
              rw [hs] at h
              simp only [Except.ok.injEq] at h
              subst h
              intro m hm
              simp only [List.mem_singleton] at hm
              subst hm
              exact handleSRVQuery_records P hA hAAAA hSRV ds r _ m
                (by simp [Msg.SetReply, Msg.new]) hs
          · rw [handle_apex_other ds r q rest hq hname t1 t2 t3] at h
            simp only [Except.ok.injEq] at h
            subst h
            intro m hm rr hrr
            simp only [List.mem_singleton] at hm
            subst hm
            simp [Msg.SetReply, Msg.new] at hrr
    · obtain ⟨o, ho⟩ := decode_total q.Name
      cases o with
      | none =>
        rw [handle_reject ds r q rest hq hname ho] at h
        simp only [Except.ok.injEq] at h
        subst h
        intro m hm
        simp at hm
      | some id =>
        rw [handle_accept ds r q rest id hq hname ho] at h
        simp only [Except.ok.injEq] at h
        subst h
        intro m hm rr hrr
        simp only [List.mem_singleton] at hm
        subst hm
        simp only [Msg.SetReply, Msg.new] at hrr
        split_ifs at hrr <;> simp at hrr <;> subst hrr <;> first | exact hA _ _ | exact hAAAA _ _

/-! ## The identifier codec: round trip -/

theorem not_dot_of_isHexChar (c : Char) (h : isHexChar c = true) : c ≠ '.' := by
  rintro rfl
  revert h
  decide

theorem roundtrip_of_no_dot (id : GoString) (hlen : id.length = 66)
    (hdot : '.' ∉ id) (h0 : id.head? = some '0') :
    decode ((id.drop 1).take 63 ++ '.' :: (id.drop 64 ++ '.' :: apex)) = .ok (some id) := by
  refine (decode_eq_some _ id).2 ⟨(id.drop 1).take 63, id.drop 64, apex, rfl, ?_, ?_, ?_, ?_⟩
  · exact fun h => hdot (List.mem_of_mem_drop (List.mem_of_mem_take h))
  · exact fun h => hdot (List.mem_of_mem_drop h)
  · simp [hlen]
  · match id, h0, hlen with
    | x :: tl, h0, hlen =>
      simp only [List.head?_cons, Option.some.injEq] at h0
      subst h0
      simp only [List.drop_succ_cons, List.drop_zero, List.cons.injEq, true_and]
      exact (List.take_append_drop 63 tl).symm

theorem target_ne_apex (a b : GoString) (h : a.length + b.length = 65) :
    a ++ '.' :: (b ++ '.' :: apex) ≠ apex := by
  intro e
  have := congrArg List.length e
  simp at this
  omega

/-! ## Claims on the identifier codec -/

/-- C1, as stated, fails: the identifier `1aa…a` (66 hexadecimal characters) is
encoded to a name that the decoder accepts, but the decoder returns `0aa…a`,
which is a different identifier. -/
theorem C1_roundtrip_needs_leading_zero :
    ('1' :: List.replicate 65 'a').length = 66 ∧
    (∀ c ∈ '1' :: List.replicate 65 'a', isHexChar c = true) ∧
    ∃ name id, nodeName ('1' :: List.replicate 65 'a') = .ok name ∧
      decode name = .ok (some id) ∧ id = '0' :: List.replicate 65 'a' ∧
      id ≠ '1' :: List.replicate 65 'a' :=
  ⟨by decide, by decide, _, _, rfl, rfl, rfl, by decide⟩

/-- C1, amended: for every identifier of 66 hexadecimal characters whose first
character is `0`, the target name built by `handleSRVQuery` is not the apex, the
decoder of `handleLightningDns` accepts it and returns the identifier itself, and
the handler, queried for that name, reads exactly that key in the directory. -/
theorem C1_roundtrip (id : GoString) (hlen : id.length = 66)
    (hhex : ∀ c ∈ id, isHexChar c = true) (h0 : id.head? = some '0') :
    ∃ name, nodeName id = .ok name ∧ name ≠ apex ∧ decode name = .ok (some id) ∧
      ∀ (ds : DnsServer) (r : Msg) (q : Question) (rest : List Question),
        r.Question = q :: rest → q.Name = name →
        ∃ m, handleLightningDns ds r = .ok { written := [m], lookups := [id] } := by
  have hdot : '.' ∉ id := fun h => not_dot_of_isHexChar _ (hhex _ h) rfl
  have hne : (id.drop 1).take 63 ++ '.' :: (id.drop 64 ++ '.' :: apex) ≠ apex :=
    target_ne_apex _ _ (by simp [hlen])
  have hdec := roundtrip_of_no_dot id hlen hdot h0
  refine ⟨_, nodeName_of_length id hlen, hne, hdec, ?_⟩
  intro ds r q rest hq hname
  exact ⟨_, handle_accept ds r q rest id hq (hname ▸ hne) (hname ▸ hdec)⟩

/-- C1, amended, at the identifier `02aa…a`. -/
theorem C1_roundtrip_witness :
    ∃ name, nodeName ('0' :: '2' :: List.replicate 64 'a') = .ok name ∧ name ≠ apex ∧
      decode name = .ok (some ('0' :: '2' :: List.replicate 64 'a')) ∧
      ∀ (ds : DnsServer) (r : Msg) (q : Question) (rest : List Question),
        r.Question = q :: rest → q.Name = name →
        ∃ m, handleLightningDns ds r =
          .ok { written := [m], lookups := ['0' :: '2' :: List.replicate 64 'a'] } :=
  C1_roundtrip ('0' :: '2' :: List.replicate 64 'a') (by decide) (by decide) (by decide)

/-- C5: decode acceptance and result. For a query whose name is not the apex,
the decoder never panics; it accepts the name with result `id` exactly when the
name is `c1.c2.c3` with no dot in `c1` and `c2` (three components when split
at the first two dots), `len c1 + len c2 = 65` and `id = "0" ++ c1 ++ c2`; it
rejects exactly when the name has no such form. When it accepts, the handler
reads the key `id` and writes one reply; when it rejects, the handler reads no
key of the directory and writes nothing, so no record is appended. -/
theorem C5_decode_acceptance (ds : DnsServer) (r : Msg) (q : Question)
    (rest : List Question) (hq : r.Question = q :: rest) (hname : q.Name ≠ apex) :
    (∃ o, decode q.Name = .ok o) ∧
    (∀ id, decode q.Name = .ok (some id) ↔
      ∃ c1 c2 c3, q.Name = c1 ++ '.' :: (c2 ++ '.' :: c3) ∧ '.' ∉ c1 ∧ '.' ∉ c2 ∧
        c1.length + c2.length = 65 ∧ id = '0' :: (c1 ++ c2)) ∧
    (decode q.Name = .ok none ↔
      ¬ ∃ c1 c2 c3, q.Name = c1 ++ '.' :: (c2 ++ '.' :: c3) ∧ '.' ∉ c1 ∧ '.' ∉ c2 ∧
        c1.length + c2.length = 65) ∧
    (∀ c1 c2 c3, SplitN q.Name '.' 3 = [c1, c2, c3] ↔
      q.Name = c1 ++ '.' :: (c2 ++ '.' :: c3) ∧ '.' ∉ c1 ∧ '.' ∉ c2) ∧
    (∀ id, decode q.Name = .ok (some id) →
      ∃ m, handleLightningDns ds r = .ok { written := [m], lookups := [id] }) ∧
    (decode q.Name = .ok none →
      handleLightningDns ds r = .ok { written := [], lookups := [] }) :=
  ⟨decode_total q.Name, decode_eq_some q.Name, decode_eq_none q.Name,
    SplitN_three '.' q.Name,
    fun id hd => ⟨_, handle_accept ds r q rest id hq hname hd⟩,
    fun hd => handle_reject ds r q rest hq hname hd⟩

/-- C5 at two names: `foo.lseed.bitcoinstats.com.` is rejected without a
directory read, and the per-peer name of `exId4` is accepted with result
`exId4`. -/
theorem C5_decode_acceptance_witness :
    (decode "foo.lseed.bitcoinstats.com.".toList = .ok none ∧
      handleLightningDns exServer (exQuery "foo.lseed.bitcoinstats.com.".toList TypeA) =
        .ok { written := [], lookups := [] }) ∧
    (decode (exName exId4) = .ok (some exId4) ∧
      ∃ m, handleLightningDns exServer (exQuery (exName exId4) TypeA) =
        .ok { written := [m], lookups := [exId4] }) :=
  ⟨⟨rfl, (C5_decode_acceptance exServer
      (exQuery "foo.lseed.bitcoinstats.com.".toList TypeA)
      ⟨"foo.lseed.bitcoinstats.com.".toList, TypeA, ClassINET⟩ [] rfl
      (by decide)).2.2.2.2.2 rfl⟩,
   ⟨rfl, (C5_decode_acceptance exServer (exQuery (exName exId4) TypeA)
      ⟨exName exId4, TypeA, ClassINET⟩ [] rfl (by decide)).2.2.2.2.1 exId4 rfl⟩⟩

/-- C9: encode shape and split invariant. For an identifier of length 66 the
two labels of `handleSRVQuery` are computed without panic; the first is the 63
characters `Id[1..63]`, the second the 2 characters `Id[64..65]`; both fit the
63-octet label limit, and the first has the largest length that does (the
smaller of 63 and the 65 characters left after the first one); together they
are the identifier without its first character; their lengths sum to 65,
whatever the characters are; and 65 is what the decoder requires: when the
labels hold no dot, every name `label1.label2.rest` is accepted. -/
theorem C9_encode_shape (id : GoString) (hlen : id.length = 66) :
    ∃ label1 label2, encode id = .ok (label1, label2) ∧
      label1.length = 63 ∧ label2.length = 2 ∧
      (∀ i, i < 63 → label1[i]? = id[i + 1]?) ∧
      (∀ j, j < 2 → label2[j]? = id[j + 64]?) ∧
      label1.length ≤ 63 ∧ label2.length ≤ 63 ∧
      label1.length = min 63 (id.length - 1) ∧
      label1 ++ label2 = id.drop 1 ∧
      label1.length + label2.length = 65 ∧
      ('.' ∉ label1 → '.' ∉ label2 → ∀ rest,
        decode (label1 ++ '.' :: (label2 ++ '.' :: rest)) =
          .ok (some ('0' :: (label1 ++ label2)))) := by
  refine ⟨_, _, encode_of_length id hlen, by simp [hlen], by simp [hlen], ?_, ?_,
    by simp [hlen], by simp [hlen], by simp [hlen], ?_, by simp [hlen], ?_⟩
  · intro i hi
    rw [List.getElem?_take_of_lt hi, List.getElem?_drop, Nat.add_comm]
  · intro j _
    rw [List.getElem?_drop, Nat.add_comm]
  · have : id.drop 64 = (id.drop 1).drop 63 := by simp
    rw [this, List.take_append_drop]
  · intro h1 h2 rest
    exact (decode_eq_some _ _).2 ⟨_, _, rest, rfl, h1, h2, by simp [hlen], rfl⟩

/-- C9 at the identifier `exId4`. -/
theorem C9_encode_shape_witness :
    ∃ label1 label2, encode exId4 = .ok (label1, label2) ∧
      label1.length = 63 ∧ label2.length = 2 ∧
      (∀ i, i < 63 → label1[i]? = exId4[i + 1]?) ∧
      (∀ j, j < 2 → label2[j]? = exId4[j + 64]?) ∧
      label1.length ≤ 63 ∧ label2.length ≤ 63 ∧
      label1.length = min 63 (exId4.length - 1) ∧
      label1 ++ label2 = exId4.drop 1 ∧
      label1.length + label2.length = 65 ∧
      ('.' ∉ label1 → '.' ∉ label2 → ∀ rest,
        decode (label1 ++ '.' :: (label2 ++ '.' :: rest)) =
          .ok (some ('0' :: (label1 ++ label2)))) :=
  C9_encode_shape exId4 (by decide)

/-! ## Claims on the per-peer queries -/

/-- C2: section placement for a found peer. For a per-peer query (the name is
not the apex and decodes to `id`) of type A or AAAA whose `id` is in the
directory with peer `n`, the handler writes one reply. When the requested type
matches the family declared by bit 0 of `n.Type` (AAAA with bit 1, A with bit
0), Answer is exactly the one address record of `n` and Additional is empty;
otherwise Additional is exactly that record and Answer is empty. -/
theorem C2_section_placement (ds : DnsServer) (r : Msg) (q : Question)
    (rest : List Question) (id : GoString) (n : Node)
    (hq : r.Question = q :: rest) (hname : q.Name ≠ apex)
    (hdec : decode q.Name = .ok (some id))
    (hfound : ds.netview.nodes id = some n)
    (hty : q.Qtype = TypeA ∨ q.Qtype = TypeAAAA) :
    ∃ m, handleLightningDns ds r = .ok { written := [m], lookups := [id] } ∧
      ((q.Qtype = TypeA ∧ n.Type_ % 2 = 0 →
          m.Answer = [RR.A ⟨q.Name, TypeA, ClassINET, 60⟩ n.Ip] ∧ m.Extra = []) ∧
       (q.Qtype = TypeAAAA ∧ n.Type_ % 2 = 1 →
          m.Answer = [RR.AAAA ⟨q.Name, TypeAAAA, ClassINET, 60⟩ n.Ip] ∧ m.Extra = []) ∧
       (q.Qtype = TypeA ∧ n.Type_ % 2 = 1 →
          m.Answer = [] ∧ m.Extra = [RR.A ⟨q.Name, TypeA, ClassINET, 60⟩ n.Ip]) ∧
       (q.Qtype = TypeAAAA ∧ n.Type_ % 2 = 0 →
          m.Answer = [] ∧ m.Extra = [RR.AAAA ⟨q.Name, TypeAAAA, ClassINET, 60⟩ n.Ip])) := by
  refine ⟨_, handle_accept ds r q rest id hq hname hdec, ?_⟩
  simp only [hfound, Option.getD_some]
  rcases hty with h | h
  · have hc : ¬ TypeA = TypeAAAA := by decide
    have h2 : ¬ q.Qtype = TypeAAAA := by rw [h]; exact hc
    refine ⟨?_, ?_, ?_, ?_⟩
    · rintro ⟨_, hb⟩; simp [h, hc, hb, Msg.SetReply, Msg.new]
    · rintro ⟨e, _⟩; exact absurd e h2
    · rintro ⟨_, hb⟩; simp [h, hc, hb, Msg.SetReply, Msg.new]
    · rintro ⟨e, _⟩; exact absurd e h2
  · have h2 : ¬ q.Qtype = TypeA := by rw [h]; decide
    refine ⟨?_, ?_, ?_, ?_⟩
    · rintro ⟨e, _⟩; exact absurd e h2
    · rintro ⟨_, hb⟩; simp [h, hb, Msg.SetReply, Msg.new]
    · rintro ⟨e, _⟩; exact absurd e h2
    · rintro ⟨_, hb⟩; simp [h, hb, Msg.SetReply, Msg.new]

/-- C2 at the server `exServer`: the IPv6 peer queried for type A gets its
record in Additional, and queried for type AAAA gets it in Answer. -/
theorem C2_section_placement_witness :
    (∃ m, handleLightningDns exServer (exQuery (exName exId6) TypeA) =
        .ok { written := [m], lookups := [exId6] } ∧
      m.Answer = [] ∧ m.Extra = [RR.A ⟨exName exId6, TypeA, ClassINET, 60⟩ exPeer6.Ip]) ∧
    (∃ m, handleLightningDns exServer (exQuery (exName exId6) TypeAAAA) =
        .ok { written := [m], lookups := [exId6] } ∧
      m.Answer = [RR.AAAA ⟨exName exId6, TypeAAAA, ClassINET, 60⟩ exPeer6.Ip] ∧
      m.Extra = []) := by
  constructor
  · obtain ⟨m, hm, _, _, h, _⟩ :=
      C2_section_placement exServer (exQuery (exName exId6) TypeA)
        ⟨exName exId6, TypeA, ClassINET⟩ [] exId6 exPeer6 rfl (by decide) rfl rfl (Or.inl rfl)
    exact ⟨m, hm, h ⟨rfl, rfl⟩⟩
  · obtain ⟨m, hm, _, h, _, _⟩ :=
      C2_section_placement exServer (exQuery (exName exId6) TypeAAAA)
        ⟨exName exId6, TypeAAAA, ClassINET⟩ [] exId6 exPeer6 rfl (by decide) rfl rfl (Or.inr rfl)
    exact ⟨m, hm, h ⟨rfl, rfl⟩⟩

/-- C3 fails on the code. The identifier `exIdAbsent` is not in the directory of
`exServer`; the type A query for its per-peer name nevertheless gets a reply
whose Answer holds one A record, built from the zero `Node` (empty address). -/
theorem C3_lookup_miss_answers_with_zero_node :
    exServer.netview.nodes exIdAbsent = none ∧
    decode (exName exIdAbsent) = .ok (some exIdAbsent) ∧
    ∃ m, handleLightningDns exServer (exQuery (exName exIdAbsent) TypeA) =
        .ok { written := [m], lookups := [exIdAbsent] } ∧
      m.Answer = [RR.A ⟨exName exIdAbsent, TypeA, ClassINET, 60⟩ []] ∧ m.Extra = [] :=
  ⟨rfl, rfl, _, rfl, rfl, rfl⟩

/-- C4 fails on the code. The name `foo.lseed.bitcoinstats.com.` is not the apex
and fails the structural check (its first two components have 3 + 5
characters); the handler returns without handing any message to `w.WriteMsg`. -/
theorem C4_malformed_name_writes_no_reply :
    "foo.lseed.bitcoinstats.com.".toList ≠ apex ∧
    decode "foo.lseed.bitcoinstats.com.".toList = .ok none ∧
    handleLightningDns exServer (exQuery "foo.lseed.bitcoinstats.com.".toList TypeA) =
      .ok { written := [], lookups := [] } :=
  ⟨by decide, rfl, rfl⟩

/-! ## Claims on the apex queries -/

/-- C6: apex SRV pairing. For an apex SRV query, when every peer of the sample
`s = RandomSample(255, 25)` has an identifier of length 66, the handler writes
one reply; its Answer is one SRV record per peer of `s` and its Additional one
address record per peer of `s`, both in sample order (so both have `len s`
records and the `i`-th of each belongs to `s[i]`). The SRV record of a peer has
its `Port` and, as Target, the name `Id[1:64].Id[64:].lseed.bitcoinstats.com.`
that `handleSRVQuery` builds; the address record has that same name as owner,
the peer's address as data, and type AAAA when bit 0 of `Type` is 1, else A. -/
theorem C6_apex_srv_pairing (ds : DnsServer) (r : Msg) (q : Question)
    (rest : List Question) (hq : r.Question = q :: rest) (hname : q.Name = apex)
    (hty : q.Qtype = TypeSRV)
    (hids : ∀ n ∈ ds.netview.RandomSample 255 25, n.Id.length = 66) :
    ∃ m, handleLightningDns ds r = .ok { written := [m], lookups := [] } ∧
      m.Answer.length = (ds.netview.RandomSample 255 25).length ∧
      m.Extra.length = (ds.netview.RandomSample 255 25).length ∧
      (∀ n ∈ ds.netview.RandomSample 255 25, nodeName n.Id =
        .ok ((n.Id.drop 1).take 63 ++ ['.'] ++ n.Id.drop 64 ++
          ".lseed.bitcoinstats.com.".toList)) ∧
      m.Answer = (ds.netview.RandomSample 255 25).map (fun n =>
        RR.SRV ⟨srvOwner, TypeSRV, ClassINET, 60⟩ 10 10 n.Port
          ((n.Id.drop 1).take 63 ++ ['.'] ++ n.Id.drop 64 ++
            ".lseed.bitcoinstats.com.".toList)) ∧
      m.Extra = (ds.netview.RandomSample 255 25).map (fun n =>
        if n.Type_ % 2 = 1 then
          RR.AAAA ⟨(n.Id.drop 1).take 63 ++ ['.'] ++ n.Id.drop 64 ++
            ".lseed.bitcoinstats.com.".toList, TypeAAAA, ClassINET, 60⟩ n.Ip
        else
          RR.A ⟨(n.Id.drop 1).take 63 ++ ['.'] ++ n.Id.drop 64 ++
            ".lseed.bitcoinstats.com.".toList, TypeA, ClassINET, 60⟩ n.Ip) := by
  have hapex : ∀ a b : GoString,
      a ++ ['.'] ++ b ++ ".lseed.bitcoinstats.com.".toList = a ++ '.' :: (b ++ '.' :: apex) := by
    intro a b; simp [apex]
  simp only [hapex]
  rw [handle_apex_SRV ds r q rest hq hname hty, handleSRVQuery_eq ds r _ hids]
  refine ⟨_, rfl, ?_, ?_, ?_, ?_, ?_⟩
  · simp [Msg.SetReply, Msg.new]
  · simp [Msg.SetReply, Msg.new]
  · exact fun n hn => nodeName_of_length n.Id (hids n hn)
  · simp [Msg.SetReply, Msg.new]
  · simp [Msg.SetReply, Msg.new]

/-- C6 at the server `exServer`, whose sample for `(255, 25)` is the IPv4 peer
followed by the IPv6 peer. -/
theorem C6_apex_srv_pairing_witness :
    exServer.netview.RandomSample 255 25 = [exPeer4, exPeer6] ∧
    ∃ m, handleLightningDns exServer (exQuery apex TypeSRV) =
        .ok { written := [m], lookups := [] } ∧
      m.Answer =
        [RR.SRV ⟨srvOwner, TypeSRV, ClassINET, 60⟩ 10 10 9735 (exName exId4),
         RR.SRV ⟨srvOwner, TypeSRV, ClassINET, 60⟩ 10 10 9736 (exName exId6)] ∧
      m.Extra =
        [RR.A ⟨exName exId4, TypeA, ClassINET, 60⟩ exPeer4.Ip,
         RR.AAAA ⟨exName exId6, TypeAAAA, ClassINET, 60⟩ exPeer6.Ip] := by
  obtain ⟨m, hm, _, _, _, ha, he⟩ :=
    C6_apex_srv_pairing exServer (exQuery apex TypeSRV) ⟨apex, TypeSRV, ClassINET⟩ []
      rfl rfl rfl (by decide)
  exact ⟨rfl, m, hm, ha.trans rfl, he.trans rfl⟩

/-- C7: sample bound. Let the directory return, for every request
`(count, poolSize)`, at most `count` and at most `poolSize` peers, all peers of
the sample for `(255, 25)` having identifiers of length 66. Then the handler
writes one reply to an apex query of type AAAA, A or SRV, whose Answer has as
many records as the directory returned for `(3, 25)`, `(2, 25)` and `(255, 25)`
respectively: at most 3, at most 2, and at most 255 and at most 25. -/
theorem C7_sample_bound (ds : DnsServer) (r : Msg) (q : Question)
    (rest : List Question) (hq : r.Question = q :: rest) (hname : q.Name = apex)
    (hbound : ∀ count poolSize,
      (ds.netview.RandomSample count poolSize).length ≤ count ∧
      (ds.netview.RandomSample count poolSize).length ≤ poolSize)
    (hids : ∀ n ∈ ds.netview.RandomSample 255 25, n.Id.length = 66) :
    (q.Qtype = TypeAAAA →
      ∃ m, handleLightningDns ds r = .ok { written := [m], lookups := [] } ∧
        m.Answer.length = (ds.netview.RandomSample 3 25).length ∧
        m.Answer.length ≤ 3) ∧
    (q.Qtype = TypeA →
      ∃ m, handleLightningDns ds r = .ok { written := [m], lookups := [] } ∧
        m.Answer.length = (ds.netview.RandomSample 2 25).length ∧
        m.Answer.length ≤ 2) ∧
    (q.Qtype = TypeSRV →
      ∃ m, handleLightningDns ds r = .ok { written := [m], lookups := [] } ∧
        m.Answer.length = (ds.netview.RandomSample 255 25).length ∧
        m.Answer.length ≤ 255 ∧ m.Answer.length ≤ 25) := by
  refine ⟨fun hty => ?_, fun hty => ?_, fun hty => ?_⟩
  · refine ⟨_, handle_apex_AAAA ds r q rest hq hname hty, ?_, ?_⟩
    · simp
    · simpa using (hbound 3 25).1
  · refine ⟨_, handle_apex_A ds r q rest hq hname hty, ?_, ?_⟩
    · simp
    · simpa using (hbound 2 25).1
  · rw [handle_apex_SRV ds r q rest hq hname hty, handleSRVQuery_eq ds r _ hids]
    refine ⟨_, rfl, ?_, ?_, ?_⟩
    · simp [Msg.SetReply, Msg.new]
    · simpa [Msg.SetReply, Msg.new] using (hbound 255 25).1
    · simpa [Msg.SetReply, Msg.new] using (hbound 255 25).2

/-- C7 at the server `exServer`, whose directory has two peers: the three apex
queries each get two Answer records. -/
theorem C7_sample_bound_witness :
    (∃ m, handleLightningDns exServer (exQuery apex TypeAAAA) =
        .ok { written := [m], lookups := [] } ∧
      m.Answer.length = (exServer.netview.RandomSample 3 25).length ∧
      m.Answer.length ≤ 3) ∧
    (∃ m, handleLightningDns exServer (exQuery apex TypeA) =
        .ok { written := [m], lookups := [] } ∧
      m.Answer.length = (exServer.netview.RandomSample 2 25).length ∧
      m.Answer.length ≤ 2) ∧
    (∃ m, handleLightningDns exServer (exQuery apex TypeSRV) =
        .ok { written := [m], lookups := [] } ∧
      m.Answer.length = (exServer.netview.RandomSample 255 25).length ∧
      m.Answer.length ≤ 255 ∧ m.Answer.length ≤ 25) := by
  have hb : ∀ count poolSize,
      (exServer.netview.RandomSample count poolSize).length ≤ count ∧
      (exServer.netview.RandomSample count poolSize).length ≤ poolSize := by
    intro count poolSize
    simp only [exServer, NewDnsServer, List.length_take]
    omega
  have hi : ∀ n ∈ exServer.netview.RandomSample 255 25, n.Id.length = 66 := by decide
  exact
    ⟨(C7_sample_bound exServer (exQuery apex TypeAAAA) ⟨apex, TypeAAAA, ClassINET⟩ []
        rfl rfl hb hi).1 rfl,
     (C7_sample_bound exServer (exQuery apex TypeA) ⟨apex, TypeA, ClassINET⟩ []
        rfl rfl hb hi).2.1 rfl,
     (C7_sample_bound exServer (exQuery apex TypeSRV) ⟨apex, TypeSRV, ClassINET⟩ []
        rfl rfl hb hi).2.2 rfl⟩

/-- C8: record shape invariant. Whatever the request and the directory, every
record in the Answer and Additional sections of a message the handler writes has
TTL 60 and class Internet, and every SRV record among them has Priority 10 and
Weight 10. -/
theorem C8_record_shape (ds : DnsServer) (r : Msg) (out : Outcome)
    (h : handleLightningDns ds r = .ok out) :
    ∀ m ∈ out.written, ∀ rr ∈ m.Answer ++ m.Extra,
      rr.Hdr.Ttl = 60 ∧ rr.Hdr.Class = ClassINET ∧
      ∀ hdr priority weight port target,
        rr = RR.SRV hdr priority weight port target → priority = 10 ∧ weight = 10 := by
  refine handleLightningDns_records
    (fun rr => rr.Hdr.Ttl = 60 ∧ rr.Hdr.Class = ClassINET ∧
      ∀ hdr priority weight port target,
        rr = RR.SRV hdr priority weight port target → priority = 10 ∧ weight = 10)
    ?_ ?_ ?_ ds r out h
  · intro name ip
    exact ⟨rfl, rfl, fun _ _ _ _ _ e => by cases e⟩
  · intro name ip
    exact ⟨rfl, rfl, fun _ _ _ _ _ e => by cases e⟩
  · intro port t
    refine ⟨rfl, rfl, fun _ _ _ _ _ e => ?_⟩
    cases e
    exact ⟨rfl, rfl⟩

/-- C8 at the apex SRV query to `exServer`, whose reply has two SRV records in
Answer and two address records in Additional. -/
theorem C8_record_shape_witness :
    ∃ out, handleLightningDns exServer (exQuery apex TypeSRV) = .ok out ∧
      (∃ m, out.written = [m] ∧ m.Answer.length = 2 ∧ m.Extra.length = 2) ∧
      ∀ m ∈ out.written, ∀ rr ∈ m.Answer ++ m.Extra,
        rr.Hdr.Ttl = 60 ∧ rr.Hdr.Class = ClassINET ∧
        ∀ hdr priority weight port target,
          rr = RR.SRV hdr priority weight port target → priority = 10 ∧ weight = 10 :=
  ⟨_, rfl, ⟨_, rfl, rfl, rfl⟩, C8_record_shape exServer (exQuery apex TypeSRV) _ rfl⟩

/-- C10: apex address queries. For an apex query of type AAAA (of type A) the
handler writes one reply whose Answer is exactly one AAAA (one A) record per
peer of the sample the directory returned for `(3, 25)` (for `(2, 25)`), in
sample order, each with the queried apex name as owner and the peer's address
as data; Additional is empty; an empty sample gives an empty Answer. -/
theorem C10_apex_address (ds : DnsServer) (r : Msg) (q : Question)
    (rest : List Question) (hq : r.Question = q :: rest) (hname : q.Name = apex) :
    (q.Qtype = TypeAAAA →
      ∃ m, handleLightningDns ds r = .ok { written := [m], lookups := [] } ∧
        m.Answer = (ds.netview.RandomSample 3 25).map
          (fun n => RR.AAAA ⟨apex, TypeAAAA, ClassINET, 60⟩ n.Ip) ∧
        m.Extra = [] ∧
        (ds.netview.RandomSample 3 25 = [] → m.Answer = [])) ∧
    (q.Qtype = TypeA →
      ∃ m, handleLightningDns ds r = .ok { written := [m], lookups := [] } ∧
        m.Answer = (ds.netview.RandomSample 2 25).map
          (fun n => RR.A ⟨apex, TypeA, ClassINET, 60⟩ n.Ip) ∧
        m.Extra = [] ∧
        (ds.netview.RandomSample 2 25 = [] → m.Answer = [])) := by
  refine ⟨fun hty => ?_, fun hty => ?_⟩
  · refine ⟨_, handle_apex_AAAA ds r q rest hq hname hty, ?_, ?_, ?_⟩
    · simp [hname]
    · simp [Msg.SetReply, Msg.new]
    · intro he; simp [he]
  · refine ⟨_, handle_apex_A ds r q rest hq hname hty, ?_, ?_, ?_⟩
    · simp [hname]
    · simp [Msg.SetReply, Msg.new]
    · intro he; simp [he]

/-- C10 at the server `exServer`: the apex AAAA query and the apex A query. -/
theorem C10_apex_address_witness :
    (∃ m, handleLightningDns exServer (exQuery apex TypeAAAA) =
        .ok { written := [m], lookups := [] } ∧
      m.Answer = [RR.AAAA ⟨apex, TypeAAAA, ClassINET, 60⟩ exPeer4.Ip,
                  RR.AAAA ⟨apex, TypeAAAA, ClassINET, 60⟩ exPeer6.Ip] ∧
      m.Extra = []) ∧
    (∃ m, handleLightningDns exServer (exQuery apex TypeA) =
        .ok { written := [m], lookups := [] } ∧
      m.Answer = [RR.A ⟨apex, TypeA, ClassINET, 60⟩ exPeer4.Ip,
                  RR.A ⟨apex, TypeA, ClassINET, 60⟩ exPeer6.Ip] ∧
      m.Extra = []) := by
  constructor
  · obtain ⟨m, hm, ha, he, _⟩ :=
      (C10_apex_address exServer (exQuery apex TypeAAAA) ⟨apex, TypeAAAA, ClassINET⟩ []
        rfl rfl).1 rfl
    exact ⟨m, hm, ha.trans rfl, he⟩
  · obtain ⟨m, hm, ha, he, _⟩ :=
      (C10_apex_address exServer (exQuery apex TypeA) ⟨apex, TypeA, ClassINET⟩ []
        rfl rfl).2 rfl
    exact ⟨m, hm, ha.trans rfl, he⟩

/-- C11 fails on the code. In the reply to the apex SRV query to `exServer`,
both SRV records have the same owner name `_lightning._tcp.bitcoinstats.com.`,
and that name does not end with `.lseed.bitcoinstats.com.`: it is not a name
under the apex the handler answers for. -/
theorem C11_srv_owner_not_under_apex :
    ∃ m, handleLightningDns exServer (exQuery apex TypeSRV) =
        .ok { written := [m], lookups := [] } ∧
      m.Answer.length = 2 ∧
      (∀ rr ∈ m.Answer, rr.Hdr.Name = "_lightning._tcp.bitcoinstats.com.".toList) ∧
      (∀ rr ∈ m.Answer,
        ('.' :: apex).isSuffixOf rr.Hdr.Name = false ∧
        ¬ ∃ label, rr.Hdr.Name = label ++ ".lseed.bitcoinstats.com.".toList) := by
  refine ⟨_, rfl, rfl, by decide, ?_⟩
  intro rr hrr
  have hname : rr.Hdr.Name = "_lightning._tcp.bitcoinstats.com.".toList := by
    revert rr; decide
  rw [hname]
  refine ⟨by decide, ?_⟩
  rintro ⟨label, h⟩
  have hs : ".lseed.bitcoinstats.com.".toList <:+
      "_lightning._tcp.bitcoinstats.com.".toList := ⟨label, h.symm⟩
  revert hs
  decide

/-- C12, as stated, fails: the peer `exPeer6` of `exServer` has a 16-byte
address, and the type A query for its per-peer name is answered with a record of
type A (not AAAA) that carries those 16 bytes, in Additional. -/
theorem C12_type_not_selected_by_address_length :
    exServer.netview.nodes exId6 = some exPeer6 ∧ exPeer6.Ip.length = 16 ∧
    ∃ m, handleLightningDns exServer (exQuery (exName exId6) TypeA) =
        .ok { written := [m], lookups := [exId6] } ∧
      m.Answer = [] ∧
      m.Extra = [RR.A ⟨exName exId6, TypeA, ClassINET, 60⟩ exPeer6.Ip] ∧
      ∀ rr ∈ m.Extra, rr.Hdr.Rrtype = TypeA ∧ rr.Hdr.Rrtype ≠ TypeAAAA :=
  ⟨rfl, rfl, _, rfl, rfl, rfl, by decide⟩

/-- C12, amended: every address record the handler emits has the peer's address
as record data, and its type is selected by the path, not by the length of the
address. On the apex AAAA path every record is AAAA and on the apex A path every
record is A, one per sampled peer; on the apex SRV path (sampled identifiers of
length 66) the record of a peer is AAAA when bit 0 of its `Type` is 1 and A
otherwise; on the per-peer path with a peer found in the directory, the one
record has the requested type (A or AAAA). -/
theorem C12_address_record_type (ds : DnsServer) (r : Msg) (q : Question)
    (rest : List Question) (hq : r.Question = q :: rest) :
    (q.Name = apex → q.Qtype = TypeAAAA →
      ∃ m, handleLightningDns ds r = .ok { written := [m], lookups := [] } ∧
        m.Answer = (ds.netview.RandomSample 3 25).map
          (fun n => RR.AAAA ⟨q.Name, TypeAAAA, ClassINET, 60⟩ n.Ip) ∧
        m.Extra = []) ∧
    (q.Name = apex → q.Qtype = TypeA →
      ∃ m, handleLightningDns ds r = .ok { written := [m], lookups := [] } ∧
        m.Answer = (ds.netview.RandomSample 2 25).map
          (fun n => RR.A ⟨q.Name, TypeA, ClassINET, 60⟩ n.Ip) ∧
        m.Extra = []) ∧
    (q.Name = apex → q.Qtype = TypeSRV →
      (∀ n ∈ ds.netview.RandomSample 255 25, n.Id.length = 66) →
      ∃ m, handleLightningDns ds r = .ok { written := [m], lookups := [] } ∧
        (∀ rr ∈ m.Answer, rr.Hdr.Rrtype = TypeSRV) ∧
        m.Extra = (ds.netview.RandomSample 255 25).map (fun n =>
          if n.Type_ % 2 = 1 then
            RR.AAAA ⟨(n.Id.drop 1).take 63 ++ '.' :: (n.Id.drop 64 ++ '.' :: apex),
              TypeAAAA, ClassINET, 60⟩ n.Ip
          else
            RR.A ⟨(n.Id.drop 1).take 63 ++ '.' :: (n.Id.drop 64 ++ '.' :: apex),
              TypeA, ClassINET, 60⟩ n.Ip)) ∧
    (q.Name ≠ apex → ∀ id n, decode q.Name = .ok (some id) →
      ds.netview.nodes id = some n →
      ∃ m, handleLightningDns ds r = .ok { written := [m], lookups := [id] } ∧
        (q.Qtype = TypeA →
          m.Answer ++ m.Extra = [RR.A ⟨q.Name, TypeA, ClassINET, 60⟩ n.Ip]) ∧
        (q.Qtype = TypeAAAA →
          m.Answer ++ m.Extra = [RR.AAAA ⟨q.Name, TypeAAAA, ClassINET, 60⟩ n.Ip])) := by
  refine ⟨fun hname hty => ?_, fun hname hty => ?_, fun hname hty hids => ?_,
    fun hname id n hdec hfound => ?_⟩
  · exact ⟨_, handle_apex_AAAA ds r q rest hq hname hty, rfl, by simp [Msg.SetReply, Msg.new]⟩
  · exact ⟨_, handle_apex_A ds r q rest hq hname hty, rfl, by simp [Msg.SetReply, Msg.new]⟩
  · rw [handle_apex_SRV ds r q rest hq hname hty, handleSRVQuery_eq ds r _ hids]
    refine ⟨_, rfl, ?_, by simp [Msg.SetReply, Msg.new]⟩
    intro rr hrr
    simp only [Msg.SetReply, Msg.new, List.nil_append, List.mem_map] at hrr
    obtain ⟨n, _, rfl⟩ := hrr
    rfl
  · refine ⟨_, handle_accept ds r q rest id hq hname hdec, ?_, ?_⟩
    · intro hty
      have hc : ¬ TypeA = TypeAAAA := by decide
      simp only [hfound, Option.getD_some, hty, hc, if_true, if_false]
      split_ifs <;> simp [Msg.SetReply, Msg.new]
    · intro hty
      simp only [hfound, Option.getD_some, hty, if_true]
      split_ifs <;> simp [Msg.SetReply, Msg.new]

/-- C12, amended, at the server `exServer`: the type A query for the per-peer
name of the IPv6 peer, and the apex SRV query. -/
theorem C12_address_record_type_witness :
    (∃ m, handleLightningDns exServer (exQuery (exName exId6) TypeA) =
        .ok { written := [m], lookups := [exId6] } ∧
      m.Answer ++ m.Extra = [RR.A ⟨exName exId6, TypeA, ClassINET, 60⟩ exPeer6.Ip]) ∧
    (∃ m, handleLightningDns exServer (exQuery apex TypeSRV) =
        .ok { written := [m], lookups := [] } ∧
      m.Extra = [RR.A ⟨exName exId4, TypeA, ClassINET, 60⟩ exPeer4.Ip,
                 RR.AAAA ⟨exName exId6, TypeAAAA, ClassINET, 60⟩ exPeer6.Ip]) := by
  constructor
  · obtain ⟨m, hm, ha, _⟩ :=
      (C12_address_record_type exServer (exQuery (exName exId6) TypeA)
        ⟨exName exId6, TypeA, ClassINET⟩ [] rfl).2.2.2 (by decide) exId6 exPeer6 rfl rfl
    exact ⟨m, hm, ha rfl⟩
  · obtain ⟨m, hm, _, he⟩ :=
      (C12_address_record_type exServer (exQuery apex TypeSRV)
        ⟨apex, TypeSRV, ClassINET⟩ [] rfl).2.2.1 rfl rfl (by decide)
    exact ⟨m, hm, he.trans rfl⟩

/-! ## Claims on the whole handler -/

/-- C13: unsupported query type. For an apex query whose type is none of A,
AAAA, SRV, and for a per-peer name that the decoder accepts queried with a type
other than A and AAAA, the handler writes one reply, marked as a successful
response, whose Answer and Additional sections are both empty. -/
theorem C13_unsupported_type (ds : DnsServer) (r : Msg) (q : Question)
    (rest : List Question) (hq : r.Question = q :: rest) :
    (q.Name = apex → q.Qtype ≠ TypeA → q.Qtype ≠ TypeAAAA → q.Qtype ≠ TypeSRV →
      ∃ m, handleLightningDns ds r = .ok { written := [m], lookups := [] } ∧
        m.Answer = [] ∧ m.Extra = [] ∧ m.Response = true ∧ m.Rcode = RcodeSuccess) ∧
    (q.Name ≠ apex → ∀ id, decode q.Name = .ok (some id) →
      q.Qtype ≠ TypeA → q.Qtype ≠ TypeAAAA →
      ∃ m, handleLightningDns ds r = .ok { written := [m], lookups := [id] } ∧
        m.Answer = [] ∧ m.Extra = [] ∧ m.Response = true ∧ m.Rcode = RcodeSuccess) := by
  refine ⟨fun hname h1 h2 h3 => ?_, fun hname id hdec h1 h2 => ?_⟩
  · exact ⟨_, handle_apex_other ds r q rest hq hname h2 h1 h3, rfl, rfl, rfl, rfl⟩
  · refine ⟨_, handle_accept ds r q rest id hq hname hdec, ?_⟩
    simp only [h1, h2, if_false]
    exact ⟨rfl, rfl, rfl, rfl⟩

/-- C13 at the server `exServer`: the apex queried for type TXT (16), and the
per-peer name of a peer of the directory queried for type SRV. -/
theorem C13_unsupported_type_witness :
    (∃ m, handleLightningDns exServer (exQuery apex 16) =
        .ok { written := [m], lookups := [] } ∧
      m.Answer = [] ∧ m.Extra = [] ∧ m.Response = true ∧ m.Rcode = RcodeSuccess) ∧
    (∃ m, handleLightningDns exServer (exQuery (exName exId4) TypeSRV) =
        .ok { written := [m], lookups := [exId4] } ∧
      m.Answer = [] ∧ m.Extra = [] ∧ m.Response = true ∧ m.Rcode = RcodeSuccess) :=
  ⟨(C13_unsupported_type exServer (exQuery apex 16) ⟨apex, 16, ClassINET⟩ [] rfl).1
      rfl (by decide) (by decide) (by decide),
   (C13_unsupported_type exServer (exQuery (exName exId4) TypeSRV)
      ⟨exName exId4, TypeSRV, ClassINET⟩ [] rfl).2
      (by decide) exId4 rfl (by decide) (by decide)⟩

/-- C14: never-crash. For a request with at least one question (any name, any
type) and a directory whose samples only hold peers with identifiers of length
66, the handler runs to completion: it returns an outcome and raises no
index or slice panic. In particular `Question[0]` is in range, the decoder
(`splits[0]`, `splits[1]`) does not panic on the name, and `Id[1:64]`, `Id[64:]`
are in range for every peer of the SRV sample. -/
theorem C14_never_crash (ds : DnsServer) (r : Msg) (q : Question)
    (rest : List Question) (hq : r.Question = q :: rest)
    (hids : ∀ count poolSize, ∀ n ∈ ds.netview.RandomSample count poolSize,
      n.Id.length = 66) :
    (∃ out, handleLightningDns ds r = .ok out) ∧
    index r.Question 0 = .ok q ∧
    (∃ o, decode q.Name = .ok o) ∧
    (∀ n ∈ ds.netview.RandomSample 255 25, ∃ t, nodeName n.Id = .ok t) := by
  refine ⟨?_, by simp [hq, index], decode_total q.Name,
    fun n hn => ⟨_, nodeName_of_length n.Id (hids 255 25 n hn)⟩⟩
  by_cases hname : q.Name = apex
  · by_cases t1 : q.Qtype = TypeAAAA
    · exact ⟨_, handle_apex_AAAA ds r q rest hq hname t1⟩
    · by_cases t2 : q.Qtype = TypeA
      · exact ⟨_, handle_apex_A ds r q rest hq hname t2⟩
      · by_cases t3 : q.Qtype = TypeSRV
        · rw [handle_apex_SRV ds r q rest hq hname t3,
            handleSRVQuery_eq ds r _ (hids 255 25)]
          exact ⟨_, rfl⟩
        · exact ⟨_, handle_apex_other ds r q rest hq hname t1 t2 t3⟩
  · obtain ⟨o, ho⟩ := decode_total q.Name
    cases o with
    | none => exact ⟨_, handle_reject ds r q rest hq hname ho⟩
    | some id => exact ⟨_, handle_accept ds r q rest id hq hname ho⟩

/-- C14 at the server `exServer` and the apex SRV query, the path that slices
the identifiers. -/
theorem C14_never_crash_witness :
    (∃ out, handleLightningDns exServer (exQuery apex TypeSRV) = .ok out) ∧
    index (exQuery apex TypeSRV).Question 0 = .ok ⟨apex, TypeSRV, ClassINET⟩ ∧
    (∃ o, decode apex = .ok o) ∧
    (∀ n ∈ exServer.netview.RandomSample 255 25, ∃ t, nodeName n.Id = .ok t) := by
  have hi : ∀ count poolSize, ∀ n ∈ exServer.netview.RandomSample count poolSize,
      n.Id.length = 66 := by
    intro count poolSize n hn
    have hmem : n ∈ [exPeer4, exPeer6] :=
      List.mem_of_mem_take (List.mem_of_mem_take hn)
    simp only [List.mem_cons, List.mem_singleton, List.not_mem_nil, or_false] at hmem
    rcases hmem with rfl | rfl <;> decide
  exact C14_never_crash exServer (exQuery apex TypeSRV) ⟨apex, TypeSRV, ClassINET⟩ []
    rfl hi

/-! ## Behaviour implied by the code -/

theorem decode_target (id rest : GoString) (hlen : id.length = 66) (hdot : '.' ∉ id) :
    decode ((id.drop 1).take 63 ++ '.' :: (id.drop 64 ++ '.' :: rest)) =
      .ok (some ('0' :: id.drop 1)) := by
  refine (decode_eq_some _ _).2 ⟨(id.drop 1).take 63, id.drop 64, rest, rfl, ?_, ?_, ?_, ?_⟩
  · exact fun h => hdot (List.mem_of_mem_drop (List.mem_of_mem_take h))
  · exact fun h => hdot (List.mem_of_mem_drop h)
  · simp [hlen]
  · have : id.drop 64 = (id.drop 1).drop 63 := by simp
    rw [this, List.take_append_drop]

theorem decode_some_shape (name id : GoString) (h : decode name = .ok (some id)) :
    id.length = 66 ∧ id.head? = some '0' := by
  obtain ⟨c1, c2, c3, _, _, _, h65, rfl⟩ := (decode_eq_some name id).1 h
  simp [h65]

theorem ne_apex_of_decode (name id : GoString) (h : decode name = .ok (some id)) :
    name ≠ apex := by
  rintro rfl
  have h2 : decode apex = .ok none := rfl
  rw [h2] at h
  cases h

/-- C15: the decoder always reinstates `0` as first character. For a dot-free
identifier of length 66, the name built by `handleSRVQuery` decodes to `0`
followed by the identifier without its first character, so the round trip
returns the identifier if and only if its first character is `0`; and every
identifier the decoder returns, for any name, has length 66 and begins with
`0`. -/
theorem C15_roundtrip_iff_leading_zero (id : GoString) (hlen : id.length = 66)
    (hdot : '.' ∉ id) :
    ∃ name, nodeName id = .ok name ∧
      decode name = .ok (some ('0' :: id.drop 1)) ∧
      (decode name = .ok (some id) ↔ id.head? = some '0') ∧
      ∀ name2 id2, decode name2 = .ok (some id2) →
        id2.length = 66 ∧ id2.head? = some '0' := by
  have hd := decode_target id apex hlen hdot
  refine ⟨_, nodeName_of_length id hlen, hd, ?_, decode_some_shape⟩
  rw [hd]
  match id, hlen with
  | x :: tl, _ =>
    simp only [List.drop_succ_cons, List.drop_zero, Except.ok.injEq, Option.some.injEq,
      List.cons.injEq, and_true, List.head?_cons]
    exact eq_comm

/-- C15 at the identifier `1` followed by 65 `a`, whose round trip fails, the
first character being `1`. -/
theorem C15_roundtrip_iff_leading_zero_witness :
    ∃ name, nodeName ('1' :: List.replicate 65 'a') = .ok name ∧
      decode name = .ok (some ('0' :: List.replicate 65 'a')) ∧
      ¬ decode name = .ok (some ('1' :: List.replicate 65 'a')) := by
  obtain ⟨name, hn, hd, hiff, _⟩ :=
    C15_roundtrip_iff_leading_zero ('1' :: List.replicate 65 'a') (by decide) (by decide)
  exact ⟨name, hn, hd, fun h => absurd (hiff.1 h) (by decide)⟩

/-- C16: on a lookup miss the handler continues with the zero-valued `Node`.
For a name that the decoder accepts with an identifier absent from the
directory, the type A query gets a reply with exactly one A record in Answer and
an empty Additional, and the type AAAA query a reply with exactly one AAAA
record in Additional and an empty Answer; the record has the queried name as
owner and the empty address of the zero `Node` as data. -/
theorem C16_lookup_miss_zero_node (ds : DnsServer) (r : Msg) (q : Question)
    (rest : List Question) (id : GoString) (hq : r.Question = q :: rest)
    (hdec : decode q.Name = .ok (some id)) (hmiss : ds.netview.nodes id = none) :
    Node.zero.Type_ = 0 ∧ Node.zero.Ip = [] ∧ Node.zero.Port = 0 ∧
    (q.Qtype = TypeA →
      ∃ m, handleLightningDns ds r = .ok { written := [m], lookups := [id] } ∧
        m.Answer = [RR.A ⟨q.Name, TypeA, ClassINET, 60⟩ []] ∧ m.Extra = []) ∧
    (q.Qtype = TypeAAAA →
      ∃ m, handleLightningDns ds r = .ok { written := [m], lookups := [id] } ∧
        m.Answer = [] ∧ m.Extra = [RR.AAAA ⟨q.Name, TypeAAAA, ClassINET, 60⟩ []]) := by
  have hname := ne_apex_of_decode q.Name id hdec
  refine ⟨rfl, rfl, rfl, fun hty => ?_, fun hty => ?_⟩
  · have hc : ¬ TypeA = TypeAAAA := by decide
    refine ⟨_, handle_accept ds r q rest id hq hname hdec, ?_⟩
    simp [hmiss, hty, hc, Node.zero, Msg.SetReply, Msg.new]
  · refine ⟨_, handle_accept ds r q rest id hq hname hdec, ?_⟩
    simp [hmiss, hty, Node.zero, Msg.SetReply, Msg.new]

/-- C16 at the server `exServer` and the identifier `exIdAbsent`, with a type
AAAA query. -/
theorem C16_lookup_miss_zero_node_witness :
    exServer.netview.nodes exIdAbsent = none ∧
    ∃ m, handleLightningDns exServer (exQuery (exName exIdAbsent) TypeAAAA) =
        .ok { written := [m], lookups := [exIdAbsent] } ∧
      m.Answer = [] ∧
      m.Extra = [RR.AAAA ⟨exName exIdAbsent, TypeAAAA, ClassINET, 60⟩ []] :=
  ⟨rfl, (C16_lookup_miss_zero_node exServer (exQuery (exName exIdAbsent) TypeAAAA)
    ⟨exName exIdAbsent, TypeAAAA, ClassINET⟩ [] exIdAbsent rfl rfl rfl).2.2.2.2 rfl⟩

/-- C17: end-to-end consistency of SRV targets. Let `p` be a peer of the
directory (stored under its own identifier) whose identifier has length 66,
begins with `0` and holds no dot, and let `p` be the `i`-th peer of the sample
of an apex SRV query (all sampled identifiers of length 66). Then the apex SRV
reply has, at index `i`, an SRV record with some Target `t` in Answer and an
address record `rec` owned by `t` in Additional; and the query for the name `t`
with the type of `p`'s declared family (AAAA when bit 0 of `Type` is 1, else A)
gets a reply whose Answer is exactly `rec` and whose Additional is empty. -/
theorem C17_srv_target_consistency (ds : DnsServer) (p : Node)
    (hp : ds.netview.nodes p.Id = some p) (hlen : p.Id.length = 66)
    (h0 : p.Id.head? = some '0') (hdot : '.' ∉ p.Id)
    (r1 : Msg) (q1 : Question) (rest1 : List Question)
    (hq1 : r1.Question = q1 :: rest1) (hn1 : q1.Name = apex) (ht1 : q1.Qtype = TypeSRV)
    (hids : ∀ n ∈ ds.netview.RandomSample 255 25, n.Id.length = 66)
    (i : Nat) (hi : (ds.netview.RandomSample 255 25)[i]? = some p)
    (r2 : Msg) (q2 : Question) (rest2 : List Question)
    (hq2 : r2.Question = q2 :: rest2)
    (ht2 : q2.Qtype = if p.Type_ % 2 = 1 then TypeAAAA else TypeA) :
    ∃ m1 t rec hdr,
      handleLightningDns ds r1 = .ok { written := [m1], lookups := [] } ∧
      nodeName p.Id = .ok t ∧
      m1.Answer[i]? = some (RR.SRV hdr 10 10 p.Port t) ∧
      m1.Extra[i]? = some rec ∧
      rec = (if p.Type_ % 2 = 1 then RR.AAAA ⟨t, TypeAAAA, ClassINET, 60⟩ p.Ip
             else RR.A ⟨t, TypeA, ClassINET, 60⟩ p.Ip) ∧
      (q2.Name = t →
        ∃ m2, handleLightningDns ds r2 = .ok { written := [m2], lookups := [p.Id] } ∧
          m2.Answer = [rec] ∧ m2.Extra = []) := by
  rw [handle_apex_SRV ds r1 q1 rest1 hq1 hn1 ht1, handleSRVQuery_eq ds r1 _ hids]
  refine ⟨_, _, _, ⟨srvOwner, TypeSRV, ClassINET, 60⟩, rfl,
    nodeName_of_length p.Id hlen, ?_, ?_, rfl, ?_⟩
  · simp [Msg.SetReply, Msg.new, List.getElem?_map, hi]
  · simp [Msg.SetReply, Msg.new, List.getElem?_map, hi]
  · intro hname
    have hdec : decode q2.Name = .ok (some p.Id) := by
      rw [hname]; exact roundtrip_of_no_dot p.Id hlen hdot h0
    refine ⟨_, handle_accept ds r2 q2 rest2 p.Id hq2
      (ne_apex_of_decode _ _ hdec) hdec, ?_⟩
    simp only [hp, Option.getD_some, ht2, hname]
    by_cases hb : p.Type_ % 2 = 1
    · simp [hb, Msg.SetReply, Msg.new]
    · have hb0 : p.Type_ % 2 = 0 := by omega
      have hc : ¬ TypeA = TypeAAAA := by decide
      simp [hb0, hc, Msg.SetReply, Msg.new]

/-- C17 at the server `exServer` and its IPv6 peer, the second peer of the
sample: the AAAA query for its SRV target is answered with the AAAA record that
the apex SRV reply holds in Additional. -/
theorem C17_srv_target_consistency_witness :
    ∃ m1 t rec hdr,
      handleLightningDns exServer (exQuery apex TypeSRV) =
        .ok { written := [m1], lookups := [] } ∧
      m1.Answer[1]? = some (RR.SRV hdr 10 10 exPeer6.Port t) ∧
      m1.Extra[1]? = some rec ∧
      rec = RR.AAAA ⟨t, TypeAAAA, ClassINET, 60⟩ exPeer6.Ip ∧
      ∃ m2, handleLightningDns exServer (exQuery (exName exId6) TypeAAAA) =
          .ok { written := [m2], lookups := [exId6] } ∧
        m2.Answer = [rec] ∧ m2.Extra = [] := by
  obtain ⟨m1, t, rec, hdr, h1, hn, ha, he, hrec, h2⟩ :=
    C17_srv_target_consistency exServer exPeer6 rfl (by decide) (by decide) (by decide)
      (exQuery apex TypeSRV) ⟨apex, TypeSRV, ClassINET⟩ [] rfl rfl rfl (by decide)
      1 rfl
      (exQuery (exName exId6) TypeAAAA) ⟨exName exId6, TypeAAAA, ClassINET⟩ [] rfl rfl
  have ht : t = exName exId6 := by
    have h3 : nodeName exPeer6.Id = .ok (exName exId6) := rfl
    rw [h3] at hn
    cases hn
    rfl
  exact ⟨m1, t, rec, hdr, h1, ha, he, hrec.trans rfl, h2 ht.symm⟩

/-- C18: the decoder looks only at the concatenation of the first two
components. Let two names split at their first two dots into `c1, c2, c3` and
`d1, d2, d3`, with `c1 ++ c2 = d1 ++ d2` of length 65. Then both names are
accepted with the same identifier, `0` followed by that concatenation, and the
handler reads that same key for both, wherever the first dot is and whatever the
third components are. -/
theorem C18_decode_depends_on_concatenation
    (name1 name2 c1 c2 c3 d1 d2 d3 : GoString)
    (hs1 : SplitN name1 '.' 3 = [c1, c2, c3])
    (hs2 : SplitN name2 '.' 3 = [d1, d2, d3])
    (heq : c1 ++ c2 = d1 ++ d2) (hlen : (c1 ++ c2).length = 65) :
    decode name1 = .ok (some ('0' :: (c1 ++ c2))) ∧
    decode name2 = .ok (some ('0' :: (c1 ++ c2))) ∧
    ∀ (ds : DnsServer) (r1 r2 : Msg) (q1 q2 : Question) (rest1 rest2 : List Question),
      r1.Question = q1 :: rest1 → r2.Question = q2 :: rest2 →
      q1.Name = name1 → q2.Name = name2 →
      ∃ m1 m2,
        handleLightningDns ds r1 = .ok { written := [m1], lookups := ['0' :: (c1 ++ c2)] } ∧
        handleLightningDns ds r2 = .ok { written := [m2], lookups := ['0' :: (c1 ++ c2)] } := by
  have h1 : decode name1 = .ok (some ('0' :: (c1 ++ c2))) := by
    rw [decode_of_split name1 c1 c2 c3 hs1]
    have : c1.length + c2.length = 65 := by simpa using hlen
    simp [this]
  have h2 : decode name2 = .ok (some ('0' :: (c1 ++ c2))) := by
    rw [decode_of_split name2 d1 d2 d3 hs2, heq]
    have : d1.length + d2.length = 65 := by
      have := hlen; rw [heq] at this; simpa using this
    simp [this]
  refine ⟨h1, h2, ?_⟩
  intro ds r1 r2 q1 q2 rest1 rest2 hq1 hq2 hn1 hn2
  subst hn1; subst hn2
  exact ⟨_, _, handle_accept ds r1 q1 rest1 _ hq1 (ne_apex_of_decode _ _ h1) h1,
    handle_accept ds r2 q2 rest2 _ hq2 (ne_apex_of_decode _ _ h2) h2⟩

/-- C18 at two names with the same 65 characters `a`: one with an empty first
label and the third component `example.org.`, one with a first label of 65
characters, an empty second label and the third component
`lseed.bitcoinstats.com.`. -/
theorem C18_decode_depends_on_concatenation_witness :
    decode ('.' :: (List.replicate 65 'a' ++ ".example.org.".toList)) =
      .ok (some ('0' :: List.replicate 65 'a')) ∧
    decode (List.replicate 65 'a' ++ "..lseed.bitcoinstats.com.".toList) =
      .ok (some ('0' :: List.replicate 65 'a')) := by
  obtain ⟨h1, h2, _⟩ :=
    C18_decode_depends_on_concatenation
      ('.' :: (List.replicate 65 'a' ++ ".example.org.".toList))
      (List.replicate 65 'a' ++ "..lseed.bitcoinstats.com.".toList)
      [] (List.replicate 65 'a') "example.org.".toList
      (List.replicate 65 'a') [] apex rfl rfl rfl rfl
  exact ⟨h1, h2⟩

end Lseed
